import Mathlib

/-!
Verification development for the AutoNBI repository.

This file gives a shallow embedding, in Lean, of the two subsystems the
specification's claims are about:

* the pbzx chunked-container parser and the framework-payload assembler
  (`processNBI.parse_pbzx` and the concatenation loop of
  `processNBI.processframeworkpayload` in `processnbi.py`, identical code in
  `AutoNBI.py`), and
* the disk-image lifecycle manager (`Dmg`, `MountedDMG` in `hdiutil.py`).

Bytes are modelled as `Nat` (the code only compares and copies them), files
as `List Nat`, and the file handle of the parser as the full byte list plus
a cursor (Python `f.read`/`f.seek`).  External subprocess invocations
(`hdiutil`, `xz`) are modelled by passing their observable outcome (exit
code, parsed mount points, decompressed bytes) as explicit arguments.
Python exceptions are modelled with `Except`; since the parser's
`raise "..."` aborts with the open fragment files left on disk, the error
value carries the list of fragment files that exist at the moment of the
raise, so that "produces no fragment files" is expressible.
-/

deriving instance DecidableEq for Except

namespace AutoNBI

/-- The 4-byte container magic 'pbzx' checked at offset 0 of the input. -/
def pbzxMagic : List Nat := [112, 98, 122, 120]

/-- The 6-byte xz stream magic '\xfd7zXZ\x00' the parser compares each
chunk's first six bytes against. -/
def xzMagic : List Nat := [253, 55, 122, 88, 90, 0]

/-- The 2-byte xz stream footer marker 'YZ' checked at the end of every
compressed chunk. -/
def yzFooter : List Nat := [89, 90]

/-- `struct.unpack('>Q', bytes)[0]`: big-endian interpretation of a byte
list as an unsigned integer. -/
def beToNat (l : List Nat) : Nat := l.foldl (fun a b => 256 * a + b) 0

/-- Big-endian 8-byte encoding of `n` (the synthetic encoder's length and
flags words; inverse of `beToNat` below `2^64`). -/
def natToBe8 (n : Nat) : List Nat :=
  [n / 2 ^ 56 % 256, n / 2 ^ 48 % 256, n / 2 ^ 40 % 256, n / 2 ^ 32 % 256,
   n / 2 ^ 24 % 256, n / 2 ^ 16 % 256, n / 2 ^ 8 % 256, n % 256]

/-- One fragment file written by `parse_pbzx`.  The source names the files
`'%s.part%02d.cpio.xz' % (path, section)` for compressed fragments and
`'%s.part%02d.cpio' % (path, section)` for raw ones, so a fragment file is
determined by its kind flag, its section index and its byte content.
`isxz` also models the assembler's `'.xz' in xzfile` test, which for input
paths not themselves containing '.xz' holds exactly for the compressed-kind
names. -/
structure Frag where
  isxz : Bool
  sec : Nat
  content : List Nat
deriving DecidableEq, Repr

/-- The `while (flags & (1 << 24))` loop of `parse_pbzx`, over the open
input file `(data, pos)`.  `flags` is the flag word read most recently,
`acc ++ [cur]` is the current `archivechunks` list (`cur` is the open
compressed-fragment file `xar_f`), `sec` the `section` counter.  `fuel` is
a structural-recursion bound; `parse_pbzx` passes `data.length + 1`, which
the loop can never exhaust because every iteration advances the cursor.
Reads are Python reads: `f.read(n)` returns at most the bytes remaining,
and in the raw branch `f.seek(-6, 1)` steps the cursor back six bytes from
wherever the 6-byte peek left it.  A compressed chunk's declared length
shorter than the 6-byte magic makes Python read a negative count,
i.e. to end of file. -/
def parseLoop (data : List Nat) : Nat → Nat → List Frag → Frag → Nat → Nat →
    Except (String × List Frag) (List Frag)
  | 0, _, acc, cur, _, _ => .error ("out of fuel", acc ++ [cur])
  | fuel + 1, flags, acc, cur, sec, pos =>
    if Nat.land flags (2 ^ 24) = 0 then
      .ok (acc ++ [cur])
    else if ((data.drop pos).take 8).length ≠ 8 then
      -- struct.unpack('>Q', ...) on a short read raises struct.error
      .error ("struct.error", acc ++ [cur])
    else if ((data.drop (pos + 8)).take 8).length ≠ 8 then
      .error ("struct.error", acc ++ [cur])
    else
      let flags' := beToNat ((data.drop pos).take 8)
      let flen := beToNat ((data.drop (pos + 8)).take 8)
      if (data.drop (pos + 16)).take 6 ≠ xzMagic then
        -- raw chunk: back up six bytes from the post-peek cursor, then
        -- split out f_length bytes into their own .cpio fragment, close
        -- the current .xz fragment and open a fresh one
        let peekEnd := min (pos + 22) data.length
        let content := (data.drop (peekEnd - 6)).take flen
        parseLoop data fuel flags'
          (acc ++ [cur, ⟨false, sec + 1, content⟩]) ⟨true, sec + 2, []⟩ (sec + 2)
          (min (peekEnd - 6 + flen) data.length)
      else
        -- compressed chunk: buffer f_length - 6 bytes, append magic and
        -- buffer to the open .xz fragment, then re-read the last two bytes
        -- just consumed and compare them with the footer marker
        let content := if flen < 6 then data.drop (pos + 22)
                       else (data.drop (pos + 22)).take (flen - 6)
        let cur' : Frag := ⟨cur.isxz, cur.sec, cur.content ++ xzMagic ++ content⟩
        if (xzMagic ++ content).drop ((xzMagic ++ content).length - 2) ≠ yzFooter then
          .error ("Error: Footer is not xar file footer", acc ++ [cur'])
        else
          parseLoop data fuel flags' acc cur' sec
            (if flen < 6 then data.length
             else min (pos + 22 + (flen - 6)) data.length)

/-- `processNBI.parse_pbzx`: check the 4-byte magic, read the initial
8-byte flag word, create the section-0 compressed fragment, then run the
chunk loop.  An error value carries the fragment files existing when the
exception is raised; the magic check and the initial flags read happen
before any fragment file is created. -/
def parse_pbzx (data : List Nat) : Except (String × List Frag) (List Frag) :=
  if data.take 4 ≠ pbzxMagic then .error ("Error: Not a pbzx file", [])
  else if ((data.drop 4).take 8).length ≠ 8 then .error ("struct.error", [])
  else parseLoop data (data.length + 1) (beToNat ((data.drop 4).take 8)) [] ⟨true, 0, []⟩ 0 12

/-- One step of the concatenation loop of `processframeworkpayload`:
a fragment whose name contains '.xz' and whose file is non-empty is
decompressed (`xz -d` or the bundled liblzma `decompress`, modelled by the
decoder `D`) and the decompressed bytes are appended; any other fragment's
bytes are appended as they are. -/
def assembleFrag (D : List Nat → List Nat) (fr : Frag) : List Nat :=
  if fr.isxz = true ∧ fr.content ≠ [] then D fr.content else fr.content

/-- The full concatenation loop: the fragments are consumed strictly in
list order and their (decompressed) bytes are concatenated into the
destination archive. -/
def assemble (D : List Nat → List Nat) (frags : List Frag) : List Nat :=
  (frags.map (assembleFrag D)).flatten

/-- `processNBI.processframeworkpayload`.  The source tests
`payloadtype.startswith('data')` on the output of `/usr/bin/file`; the
result of that test is passed here as `is_data`.  In the data branch it
runs `parse_pbzx` and then the concatenation loop over the returned chunk
list; an exception from `parse_pbzx` propagates, so the loop never runs.
In the other branch the payload file is renamed unchanged. -/
def processframeworkpayload (D : List Nat → List Nat) (is_data : Bool)
    (data : List Nat) : Except (String × List Frag) (List Nat) :=
  if is_data then (parse_pbzx data).map (assemble D)
  else .ok data

/-- A fragment fed to the synthetic container encoder: either raw
(already-decompressed) bytes or a complete compressed (xz) stream,
carried as its literal payload bytes. -/
inductive Chunk where
  | raw (content : List Nat)
  | xz (payload : List Nat)
deriving DecidableEq, Repr

/-- The payload bytes a chunk contributes to the container. -/
def Chunk.payload : Chunk → List Nat
  | .raw c => c
  | .xz p => p

/-- Structural well-formedness of an encoded chunk, apart from the footer
marker: a raw chunk is at least six bytes and is not mistakable for a
compressed stream; a compressed chunk starts with the 6-byte magic and is
at least magic + footer long.  Lengths fit the 64-bit length field. -/
def Chunk.wfBase : Chunk → Prop
  | .raw c => 6 ≤ c.length ∧ c.take 6 ≠ xzMagic ∧ c.length < 2 ^ 64
  | .xz p => p.take 6 = xzMagic ∧ 8 ≤ p.length ∧ p.length < 2 ^ 64

/-- The chunk's trailing footer marker is intact ('YZ' for a compressed
stream; raw chunks carry no footer). -/
def Chunk.goodFooter : Chunk → Prop
  | .raw _ => True
  | .xz p => p.drop (p.length - 2) = yzFooter

/-- A fully well-formed chunk. -/
def Chunk.wf (c : Chunk) : Prop := c.wfBase ∧ c.goodFooter

instance : DecidablePred Chunk.wfBase := fun c =>
  match c with
  | .raw _ => inferInstanceAs (Decidable (_ ∧ _ ∧ _))
  | .xz _ => inferInstanceAs (Decidable (_ ∧ _ ∧ _))

instance : DecidablePred Chunk.goodFooter := fun c =>
  match c with
  | .raw _ => inferInstanceAs (Decidable True)
  | .xz _ => inferInstanceAs (Decidable (_ = _))

instance : DecidablePred Chunk.wf := fun _ => inferInstanceAs (Decidable (_ ∧ _))

/-- The per-chunk flag word: bit 24 set exactly when another chunk
follows. -/
def flagsWord (more : Bool) : List Nat := [0, 0, 0, 0, if more then 1 else 0, 0, 0, 0]

/-- The numeric value of `flagsWord`. -/
def encFlags (more : Bool) : Nat := if more then 2 ^ 24 else 0

/-- The bytes of one encoded chunk: flag word (bit 24 announces a further
chunk), 8-byte big-endian declared length, then the payload. -/
def chunkBytes (more : Bool) (c : Chunk) : List Nat :=
  flagsWord more ++ natToBe8 c.payload.length ++ c.payload

/-- The chunk sequence of a container body. -/
def encodeChunks : List Chunk → List Nat
  | [] => []
  | c :: rest => chunkBytes (!rest.isEmpty) c ++ encodeChunks rest

/-- The synthetic container encoder: magic, initial flag word (bit 24 set
when at least one chunk follows), then the chunk sequence. -/
def encode (chunks : List Chunk) : List Nat :=
  pbzxMagic ++ flagsWord (!chunks.isEmpty) ++ encodeChunks chunks

/-- Specification-level mirror of the chunk loop on an encoded chunk list:
what `parseLoop` computes, chunk by chunk, for a structurally well-formed
container. -/
def runChunks : List Chunk → List Frag → Frag → Nat → Except (String × List Frag) (List Frag)
  | [], acc, cur, _ => .ok (acc ++ [cur])
  | .raw c :: rest, acc, cur, sec =>
      runChunks rest (acc ++ [cur, ⟨false, sec + 1, c⟩]) ⟨true, sec + 2, []⟩ (sec + 2)
  | .xz p :: rest, acc, cur, sec =>
      if p.drop (p.length - 2) = yzFooter then
        runChunks rest acc ⟨cur.isxz, cur.sec, cur.content ++ p⟩ sec
      else
        .error ("Error: Footer is not xar file footer",
          acc ++ [⟨cur.isxz, cur.sec, cur.content ++ p⟩])

/-- The fragment list produced for a well-formed chunk list, starting from
open fragment `cur` and section counter `sec`. -/
def foldFrags : List Chunk → Frag → Nat → List Frag
  | [], cur, _ => [cur]
  | .raw c :: rest, cur, sec => cur :: ⟨false, sec + 1, c⟩ :: foldFrags rest ⟨true, sec + 2, []⟩ (sec + 2)
  | .xz p :: rest, cur, sec => foldFrags rest ⟨cur.isxz, cur.sec, cur.content ++ p⟩ sec

/-- The decompressed content a chunk should contribute to the reassembled
archive, for decoder `D`. -/
def Chunk.plain (D : List Nat → List Nat) : Chunk → List Nat
  | .raw c => c
  | .xz p => D p

/-! ### The disk-image lifecycle manager (`hdiutil.py`)

External `hdiutil` invocations are modelled by their observable outcome:
the exit status and, for `attach`, the mount points parsed from the plist
stdout.  Each operation returns `Except`, and an error value carries the
instance state at the moment the exception is raised, so that what the
exception path did and did not assign is visible. -/

def HDIUTIL : String := "/usr/bin/hdiutil"

/-- Exceptions escaping the `Dmg`/`MountedDMG` methods: `HDIUtilError`
(non-zero exit of hdiutil) or a Python subscripting error
(`None[0]`/`[][0]` in `unmount`/`__exit__`, which the
`except HDIUtilError` handler does not catch). -/
inductive PyErr where
  | HDIUtilError (message : String) (return_code : Nat)
  | SubscriptError
deriving DecidableEq, Repr

/-- The observable outcome of one `hdiutil attach`: exit status plus the
mount points parsed from its plist stdout
(the `mount-point` entries of `system-entities`). -/
structure AttachResult where
  returncode : Nat
  mountPoints : List String
deriving DecidableEq, Repr

/-- The instance attributes of `Dmg`: `_path`, `_mount_points` (`None`
until the first mount), `_shadow`, `_mounted`. -/
structure Dmg where
  path : String
  mount_points : Option (List String)
  shadow : Option String
  _mounted : Bool
deriving DecidableEq, Repr

/-- `Dmg.__init__(path)`. -/
def Dmg.init (path : String) : Dmg :=
  { path := path, mount_points := none, shadow := none, _mounted := false }

/-- `os.path.join(os.path.dirname(path), os.path.basename(path) + '.shadow')`:
for a normalized path this appends '.shadow' to the image path. -/
def shadowPathFor (path : String) : String := path ++ ".shadow"

/-- The attach command built by `Dmg.mount`. -/
def Dmg.mount_command (d : Dmg) (shadow : Bool) : List String :=
  [HDIUTIL, "attach", d.path, "-mountrandom", "/tmp", "-nobrowse", "-plist",
    "-owners", "on"] ++ (if shadow then ["-shadow", shadowPathFor d.path] else [])

/-- `Dmg.mount`: when `shadow` is requested, derive and assign
`self._shadow` before the subprocess runs; invoke attach; raise
`HDIUtilError` on non-zero exit; otherwise record the parsed mount points
and set `_mounted`.  The method performs no lifecycle-state check. -/
def Dmg.mount (d : Dmg) (shadow : Bool) (res : AttachResult) :
    Except (PyErr × Dmg) Dmg :=
  let d1 := if shadow then { d with shadow := some (shadowPathFor d.path) } else d
  if res.returncode ≠ 0 then
    .error (.HDIUtilError "Failed to mount dmg" res.returncode, d1)
  else
    .ok { d1 with mount_points := some res.mountPoints, _mounted := true }

/-- `Dmg.unmount`: resolve the target mount point (`self.mount_points[0]`
when none is passed; subscripting `None` or `[]` raises a non-HDIUtilError
exception), run the polite detach with exit status `politeRc`; on failure
the `except HDIUtilError` handler retries once with `-force` (`forceRc`)
and raises `HDIUtilError` if that also fails.  `self._mounted = False` is
reached only when no exception escapes, and `_mount_points` is never
assigned. -/
def Dmg.unmount (d : Dmg) (mount_point : Option String)
    (politeRc forceRc : Nat) : Except (PyErr × Dmg) Dmg :=
  match mount_point, d.mount_points with
  | none, none => .error (.SubscriptError, d)
  | none, some [] => .error (.SubscriptError, d)
  | _, _ =>
    if politeRc = 0 then .ok { d with _mounted := false }
    else if forceRc = 0 then .ok { d with _mounted := false }
    else .error (.HDIUtilError "Failed to unmount dmg" forceRc, d)

/-- The conversion command built by `Dmg.convert`: the `-shadow <path>`
pair is present exactly when the instance has a shadow path. -/
def Dmg.convert_command (d : Dmg) (output fmt : String) : List String :=
  match d.shadow with
  | some s => [HDIUTIL, "convert", "-format", fmt, "-o", output, "-shadow", s, d.path]
  | none => [HDIUTIL, "convert", "-format", fmt, "-o", output, d.path]

/-- `Dmg.convert`: run the conversion command; raise `HDIUtilError` on
non-zero exit; on success return `Dmg(output)`.  The method assigns no
attribute of the receiver, so the result pairs the receiver state as the
method leaves it with the fresh instance. -/
def Dmg.convert (d : Dmg) (output fmt : String) (rc : Nat) :
    Except (PyErr × Dmg) (Dmg × Dmg) :=
  if rc ≠ 0 then .error (.HDIUtilError "Error attempting to convert dmg" rc, d)
  else .ok (d, Dmg.init output)

/-- The instance attributes of `MountedDMG`.  The `mounted` attribute only
comes into existence in `__enter__`; `false` stands for "not yet set". -/
structure MountedDMG where
  dmg_path : String
  shadow_path : Option String
  mount_points : List String
  mountpoint : String
  unmount : Bool
  mounted : Bool
deriving DecidableEq, Repr

/-- `MountedDMG.__init__`: derive a shadow path beside the dmg when
`use_shadow` is set and no explicit path is given; `tmpdir` is the
`tempfile.mkdtemp()` result used when no mountpoint is passed. -/
def MountedDMG.init (dmg_path : String) (mountpoint : Option String)
    (use_shadow : Bool) (shadow_path : Option String) (unmount : Bool)
    (tmpdir : String) : MountedDMG :=
  { dmg_path := dmg_path
    shadow_path :=
      if use_shadow then
        match shadow_path with
        | none => some (shadowPathFor dmg_path)
        | some s => some s
      else none
    mount_points := []
    mountpoint := mountpoint.getD tmpdir
    unmount := unmount
    mounted := false }

/-- `Dmg.mounted`: build a `MountedDMG` context manager from `self.path`
and `self._shadow`.  The method assigns nothing; the pair returned here
makes that explicit: the receiver as the method leaves it, then the new
context manager. -/
def Dmg.mounted (d : Dmg) (writable : Bool) (tmpdir : String) :
    Dmg × MountedDMG :=
  (d, MountedDMG.init d.path none writable d.shadow true tmpdir)

/-- `MountedDMG.__enter__`: run the attach command, raise `HDIUtilError`
on non-zero exit, otherwise record the parsed mount points, set
`self.mounted`, and return the mount points and the shadow path. -/
def MountedDMG.enter (m : MountedDMG) (res : AttachResult) :
    Except (PyErr × MountedDMG) (MountedDMG × (List String × Option String)) :=
  if res.returncode ≠ 0 then
    .error (.HDIUtilError "Error attempting to attach dmg" res.returncode, m)
  else
    .ok ({ m with mount_points := res.mountPoints, mounted := true },
      (res.mountPoints, m.shadow_path))

/-- `MountedDMG.__exit__`: return immediately when auto-unmount was
disabled; otherwise detach `self._mount_points[0]` politely, retry once
with `-force`, and raise `HDIUtilError` if the forced detach also fails.
The method assigns no attribute. -/
def MountedDMG.exit (m : MountedDMG) (politeRc forceRc : Nat) :
    Except (PyErr × MountedDMG) MountedDMG :=
  if m.unmount = false then .ok m
  else
    match m.mount_points with
    | [] => .error (.SubscriptError, m)
    | _ :: _ =>
      if politeRc = 0 then .ok m
      else if forceRc = 0 then .ok m
      else .error (.HDIUtilError "Failed to unmount dmg" forceRc, m)

/-- The scoped-mount round trip: obtain the context manager from
`Dmg.mounted`, enter it, exit it; the first component of the result is the
`Dmg`'s state after the whole session (the state `Dmg.mounted` returned,
which no later step takes as input or assigns to). -/
def dmg_scoped_session (d : Dmg) (writable : Bool) (tmpdir : String)
    (att : AttachResult) (politeRc forceRc : Nat) :
    Dmg × Except PyErr Unit :=
  match (d.mounted writable tmpdir).2.enter att with
  | .error (e, _) => ((d.mounted writable tmpdir).1, .error e)
  | .ok (m1, _) =>
    match m1.exit politeRc forceRc with
    | .error (e, _) => ((d.mounted writable tmpdir).1, .error e)
    | .ok _ => ((d.mounted writable tmpdir).1, .ok ())

/-- Modelled from the spec (claim C4): the claimed invariant relating the
mount-points list and the lifecycle state — the list is empty or unset
exactly when the instance is Unattached (`_mounted = false`). -/
def specMountPointsInvariant (d : Dmg) : Prop :=
  (d.mount_points = none ∨ d.mount_points = some []) ↔ d._mounted = false

/-- A byte list that is a concatenation of zero or more well-formed xz
streams: the possible contents of one compressed fragment file. -/
inductive XZConcat : List Nat → Prop
  | nil : XZConcat []
  | cons (p rest : List Nat) : p.take 6 = xzMagic → 8 ≤ p.length →
      p.drop (p.length - 2) = yzFooter → XZConcat rest → XZConcat (p ++ rest)

/-- The 16 MiB raw chunk of the C2 scenario: 16777216 bytes of 0x37. -/
def c2raw : List Nat := List.replicate 16777216 55

/-- The compressed chunk of the C2 scenario: a well-formed stream of
declared length 1 KiB — the 6-byte magic, 1016 payload bytes, and the
2-byte 'YZ' footer. -/
def c2xz : List Nat := (xzMagic ++ List.replicate 1016 0) ++ yzFooter

/-! ### Reading helpers

The parser's `f.read`/`f.seek` arithmetic, phrased as facts about
`List.take`/`List.drop` of the file suffix at the cursor. -/

theorem take_of_drop_eq {data l rest : List Nat} {pos n : Nat}
    (h : data.drop pos = l ++ rest) (hn : l.length = n) :
    (data.drop pos).take n = l := by
  rw [h, List.take_left' hn]

theorem drop_of_drop_eq {data l rest : List Nat} {pos n : Nat}
    (h : data.drop pos = l ++ rest) (hn : l.length = n) :
    data.drop (pos + n) = rest := by
  rw [← List.drop_drop, h, List.drop_left' hn]

theorem length_natToBe8 (n : Nat) : (natToBe8 n).length = 8 := rfl

theorem beToNat_natToBe8 {n : Nat} (h : n < 2 ^ 64) : beToNat (natToBe8 n) = n := by
  simp only [beToNat, natToBe8, List.foldl]
  omega

theorem length_flagsWord (m : Bool) : (flagsWord m).length = 8 := by
  cases m <;> rfl

theorem beToNat_flagsWord (m : Bool) : beToNat (flagsWord m) = encFlags m := by
  cases m <;> rfl

theorem encFlags_land (m : Bool) : (Nat.land (encFlags m) (2 ^ 24) = 0) ↔ m = false := by
  cases m <;> decide

theorem chunkBytes_length (m : Bool) (c : Chunk) :
    (chunkBytes m c).length = 16 + c.payload.length := by
  simp [chunkBytes, length_flagsWord, length_natToBe8]
  omega

theorem length_le_encodeChunks (chunks : List Chunk) :
    chunks.length ≤ (encodeChunks chunks).length := by
  induction chunks with
  | nil => simp [encodeChunks]
  | cons c rest ih =>
    simp only [encodeChunks, List.length_append, List.length_cons, chunkBytes_length]
    omega

/-! ### The chunk loop on an encoded container -/

/-- The flag word read at the start of an iteration has bit 24 clear
exactly when no further chunk was encoded. -/
theorem land_beToNat_flagsWord (rest : List Chunk) :
    (Nat.land (beToNat (flagsWord (!rest.isEmpty))) (2 ^ 24) = 0) ↔ rest = [] := by
  cases rest with
  | nil => exact iff_of_true (by decide) rfl
  | cons a l =>
    rw [show (!(a :: l).isEmpty) = true by simp]
    exact iff_of_false (by decide) (by simp)

/-- Running the parser's chunk loop over the encoding of a structurally
well-formed chunk list is exactly the chunk-by-chunk mirror `runChunks`:
each iteration consumes one encoded chunk. -/
theorem parseLoop_encodeChunks (chunks : List Chunk) :
    ∀ (fuel : Nat) (data : List Nat) (pos : Nat) (acc : List Frag) (cur : Frag)
      (sec flags : Nat),
    (∀ c ∈ chunks, c.wfBase) →
    chunks.length < fuel →
    data.drop pos = encodeChunks chunks →
    (Nat.land flags (2 ^ 24) = 0 ↔ chunks = []) →
    parseLoop data fuel flags acc cur sec pos = runChunks chunks acc cur sec := by
  induction chunks with
  | nil =>
    intro fuel data pos acc cur sec flags _ hfuel _ hfl
    obtain ⟨f, rfl⟩ : ∃ f, fuel = f + 1 := ⟨fuel - 1, by omega⟩
    simp only [parseLoop, runChunks]
    rw [if_pos (hfl.mpr rfl)]
  | cons c rest ih =>
    intro fuel data pos acc cur sec flags hwf hfuel hdrop hfl
    obtain ⟨f, rfl⟩ : ∃ f, fuel = f + 1 := ⟨fuel - 1, by omega⟩
    rw [encodeChunks, show chunkBytes (!rest.isEmpty) c ++ encodeChunks rest =
        flagsWord (!rest.isEmpty) ++
          (natToBe8 c.payload.length ++ (c.payload ++ encodeChunks rest)) by
      simp [chunkBytes, List.append_assoc]] at hdrop
    have h1 : (data.drop pos).take 8 = flagsWord (!rest.isEmpty) :=
      take_of_drop_eq hdrop (length_flagsWord _)
    have hdrop8 : data.drop (pos + 8) =
        natToBe8 c.payload.length ++ (c.payload ++ encodeChunks rest) :=
      drop_of_drop_eq hdrop (length_flagsWord _)
    have h2 : (data.drop (pos + 8)).take 8 = natToBe8 c.payload.length :=
      take_of_drop_eq hdrop8 (length_natToBe8 _)
    have hdrop16 : data.drop (pos + 16) = c.payload ++ encodeChunks rest := by
      have h := drop_of_drop_eq hdrop8 (length_natToBe8 c.payload.length)
      rwa [show pos + 8 + 8 = pos + 16 by omega] at h
    have hL : data.length = pos + 16 + c.payload.length + (encodeChunks rest).length := by
      have h := congrArg List.length hdrop
      simp only [List.length_drop, List.length_append, length_flagsWord,
        length_natToBe8] at h
      omega
    have hc1 : ¬ Nat.land flags (2 ^ 24) = 0 :=
      fun h => List.cons_ne_nil c rest (hfl.mp h)
    have hc2 : ¬ ((data.drop pos).take 8).length ≠ 8 := by
      rw [h1, length_flagsWord]; omega
    have hc3 : ¬ ((data.drop (pos + 8)).take 8).length ≠ 8 := by
      rw [h2, length_natToBe8]; omega
    have hwfrest : ∀ x ∈ rest, x.wfBase := fun x hx => hwf x (List.mem_cons_of_mem _ hx)
    have hfuelrest : rest.length < f := by
      simp only [List.length_cons] at hfuel; omega
    have hflrest := land_beToNat_flagsWord rest
    cases c with
    | raw b =>
      obtain ⟨hb6, hbm, hb64⟩ := hwf (.raw b) (List.mem_cons_self _ _)
      simp only [Chunk.payload] at h2 hdrop16 hL
      have hpeek : (data.drop (pos + 16)).take 6 = b.take 6 := by
        rw [hdrop16]; exact List.take_append_of_le_length hb6
      have hmin1 : min (pos + 22) data.length = pos + 22 := by omega
      have hcontent : (data.drop (pos + 16)).take b.length = b :=
        take_of_drop_eq hdrop16 rfl
      have hmin2 : min (pos + 16 + b.length) data.length = pos + 16 + b.length := by omega
      have hdroprest : data.drop (pos + 16 + b.length) = encodeChunks rest :=
        drop_of_drop_eq hdrop16 rfl
      simp only [parseLoop]
      rw [if_neg hc1, if_neg hc2, if_neg hc3, h1, h2, beToNat_natToBe8 hb64, hpeek,
        if_pos hbm, hmin1, show pos + 22 - 6 = pos + 16 by omega, hcontent, hmin2,
        runChunks]
      exact ih f data (pos + 16 + b.length) _ _ _ _ hwfrest hfuelrest hdroprest hflrest
    | xz p =>
      obtain ⟨hpm, hp8, hp64⟩ := hwf (.xz p) (List.mem_cons_self _ _)
      simp only [Chunk.payload] at h2 hdrop16 hL
      have hpeek : (data.drop (pos + 16)).take 6 = xzMagic := by
        rw [hdrop16, List.take_append_of_le_length (by omega), hpm]
      have hnotlt : ¬ p.length < 6 := by omega
      have hdrop22 : data.drop (pos + 22) = p.drop 6 ++ encodeChunks rest := by
        have hsplit : data.drop (pos + 16) = xzMagic ++ (p.drop 6 ++ encodeChunks rest) := by
          conv_lhs => rw [hdrop16, ← List.take_append_drop 6 p]
          rw [hpm, List.append_assoc]
        have h := drop_of_drop_eq hsplit (show xzMagic.length = 6 from rfl)
        rwa [show pos + 16 + 6 = pos + 22 by omega] at h
      have hcontent : (data.drop (pos + 22)).take (p.length - 6) = p.drop 6 :=
        take_of_drop_eq hdrop22 (by simp)
      have hmc : xzMagic ++ p.drop 6 = p := by
        conv_rhs => rw [← List.take_append_drop 6 p]
        rw [hpm]
      have hmin3 : min (pos + 22 + (p.length - 6)) data.length = pos + 16 + p.length := by
        omega
      have hdroprest : data.drop (pos + 16 + p.length) = encodeChunks rest :=
        drop_of_drop_eq hdrop16 rfl
      simp only [parseLoop]
      rw [if_neg hc1, if_neg hc2, if_neg hc3, h1, h2, beToNat_natToBe8 hp64, hpeek,
        if_neg (show ¬ xzMagic ≠ xzMagic by simp), if_neg hnotlt, if_neg hnotlt,
        hcontent, List.append_assoc cur.content xzMagic (p.drop 6), hmc, hmin3,
        runChunks]
      by_cases hft : p.drop (p.length - 2) = yzFooter
      · rw [if_neg (not_not_intro hft), if_pos hft]
        exact ih f data (pos + 16 + p.length) _ _ _ _ hwfrest hfuelrest hdroprest hflrest
      · rw [if_pos hft, if_neg hft]

/-- `parse_pbzx` on an encoded container: magic and initial flag word are
consumed, then the chunk loop mirrors the chunk list. -/
theorem parse_pbzx_encode (chunks : List Chunk) (hwf : ∀ c ∈ chunks, c.wfBase) :
    parse_pbzx (encode chunks) = runChunks chunks [] ⟨true, 0, []⟩ 0 := by
  have h0 : (encode chunks).drop 0 =
      pbzxMagic ++ (flagsWord (!chunks.isEmpty) ++ encodeChunks chunks) := by
    simp [encode, List.append_assoc]
  have htake4 : (encode chunks).take 4 = pbzxMagic := by
    have h := take_of_drop_eq h0 (show pbzxMagic.length = 4 from rfl)
    simpa using h
  have hdrop4 : (encode chunks).drop 4 =
      flagsWord (!chunks.isEmpty) ++ encodeChunks chunks := by
    have h := drop_of_drop_eq h0 (show pbzxMagic.length = 4 from rfl)
    simpa using h
  have hfb : ((encode chunks).drop 4).take 8 = flagsWord (!chunks.isEmpty) :=
    take_of_drop_eq hdrop4 (length_flagsWord _)
  have hdrop12 : (encode chunks).drop 12 = encodeChunks chunks := by
    have h := drop_of_drop_eq hdrop4 (length_flagsWord _)
    rwa [show 4 + 8 = 12 from rfl] at h
  have hfuel : chunks.length < (encode chunks).length + 1 := by
    have h1 := length_le_encodeChunks chunks
    have h2 := congrArg List.length hdrop12
    simp only [List.length_drop] at h2
    omega
  have hlen8 : ¬ (((encode chunks).drop 4).take 8).length ≠ 8 := by
    rw [hfb, length_flagsWord]; omega
  rw [parse_pbzx, if_neg (not_not_intro htake4), if_neg hlen8, hfb]
  exact parseLoop_encodeChunks chunks _ _ 12 [] _ 0 _ hwf hfuel hdrop12
    (land_beToNat_flagsWord chunks)

/-- When every footer marker is intact, the chunk loop succeeds and
returns the accumulated fragment list. -/
theorem runChunks_ok (chunks : List Chunk) :
    ∀ (acc : List Frag) (cur : Frag) (sec : Nat), (∀ c ∈ chunks, c.goodFooter) →
    runChunks chunks acc cur sec = .ok (acc ++ foldFrags chunks cur sec) := by
  induction chunks with
  | nil => intro acc cur sec _; simp [runChunks, foldFrags]
  | cons c rest ih =>
    intro acc cur sec h
    cases c with
    | raw b =>
      rw [runChunks, foldFrags, ih _ _ _ (fun x hx => h x (List.mem_cons_of_mem _ hx))]
      simp
    | xz p =>
      have hft : p.drop (p.length - 2) = yzFooter := h (.xz p) (List.mem_cons_self _ _)
      rw [runChunks, if_pos hft, foldFrags,
        ih _ _ _ (fun x hx => h x (List.mem_cons_of_mem _ hx))]

/-- When some chunk's footer marker is corrupted, the chunk loop raises
the footer error. -/
theorem runChunks_err (chunks : List Chunk) :
    ∀ (acc : List Frag) (cur : Frag) (sec : Nat), (∃ c ∈ chunks, ¬ c.goodFooter) →
    ∃ fs, runChunks chunks acc cur sec =
      .error ("Error: Footer is not xar file footer", fs) := by
  induction chunks with
  | nil => intro _ _ _ h; simp at h
  | cons c rest ih =>
    intro acc cur sec h
    cases c with
    | raw b =>
      have hrest : ∃ x ∈ rest, ¬ x.goodFooter := by
        obtain ⟨x, hx, hbad⟩ := h
        rcases List.mem_cons.mp hx with rfl | hx'
        · exact (hbad trivial).elim
        · exact ⟨x, hx', hbad⟩
      rw [runChunks]
      exact ih _ _ _ hrest
    | xz p =>
      by_cases hft : p.drop (p.length - 2) = yzFooter
      · have hrest : ∃ x ∈ rest, ¬ x.goodFooter := by
          obtain ⟨x, hx, hbad⟩ := h
          rcases List.mem_cons.mp hx with rfl | hx'
          · exact (hbad hft).elim
          · exact ⟨x, hx', hbad⟩
        rw [runChunks, if_pos hft]
        exact ih _ _ _ hrest
      · exact ⟨_, by rw [runChunks, if_neg hft]⟩

/-- Full statement for a well-formed container: the parser succeeds with
the fragment fold. -/
theorem parse_pbzx_encode_ok (chunks : List Chunk) (hwf : ∀ c ∈ chunks, c.wf) :
    parse_pbzx (encode chunks) = .ok (foldFrags chunks ⟨true, 0, []⟩ 0) := by
  rw [parse_pbzx_encode chunks (fun c hc => (hwf c hc).1),
    runChunks_ok chunks _ _ _ (fun c hc => (hwf c hc).2)]
  simp

/-- Whatever the input, a successful run of the chunk loop returns the
accumulated list followed by a fragment that keeps the kind flag and
section index of the fragment that was open when the loop started. -/
theorem parseLoop_ok_head (data : List Nat) :
    ∀ (fuel flags : Nat) (acc : List Frag) (cur : Frag) (sec pos : Nat) (l : List Frag),
    parseLoop data fuel flags acc cur sec pos = .ok l →
    ∃ fr t, l = acc ++ fr :: t ∧ fr.isxz = cur.isxz ∧ fr.sec = cur.sec := by
  intro fuel
  induction fuel with
  | zero =>
    intro flags acc cur sec pos l h
    simp [parseLoop] at h
  | succ f ih =>
    intro flags acc cur sec pos l h
    simp only [parseLoop] at h
    by_cases h1 : Nat.land flags (2 ^ 24) = 0
    · rw [if_pos h1] at h
      injection h with h'
      exact ⟨cur, [], h'.symm, rfl, rfl⟩
    · rw [if_neg h1] at h
      by_cases h2 : ((data.drop pos).take 8).length ≠ 8
      · rw [if_pos h2] at h; simp at h
      · rw [if_neg h2] at h
        by_cases h3 : ((data.drop (pos + 8)).take 8).length ≠ 8
        · rw [if_pos h3] at h; simp at h
        · rw [if_neg h3] at h
          by_cases h4 : (data.drop (pos + 16)).take 6 ≠ xzMagic
          · rw [if_pos h4] at h
            obtain ⟨fr', t', ht', _, _⟩ := ih _ _ _ _ _ _ h
            rw [List.append_assoc] at ht'
            exact ⟨cur, _, ht', rfl, rfl⟩
          · rw [if_neg h4] at h
            split at h <;> split at h
            · simp at h
            · obtain ⟨fr', t', ht', hi', hs'⟩ := ih _ _ _ _ _ _ h
              exact ⟨fr', t', ht', hi', hs'⟩
            · simp at h
            · obtain ⟨fr', t', ht', hi', hs'⟩ := ih _ _ _ _ _ _ h
              exact ⟨fr', t', ht', hi', hs'⟩

/-! ### The assembler on the fragment fold -/

theorem XZConcat.append {l p : List Nat} (hl : XZConcat l) (h1 : p.take 6 = xzMagic)
    (h2 : 8 ≤ p.length) (h3 : p.drop (p.length - 2) = yzFooter) : XZConcat (l ++ p) := by
  induction hl with
  | nil => simpa using XZConcat.cons p [] h1 h2 h3 .nil
  | cons q rest hq1 hq2 hq3 hrest ih =>
    rw [List.append_assoc]
    exact XZConcat.cons q (rest ++ p) hq1 hq2 hq3 ih

/-- A decoder that splits off a leading well-formed stream also splits off
any non-empty concatenation of such streams. -/
theorem decoder_concat_append (D : List Nat → List Nat)
    (hD : ∀ p q, p.take 6 = xzMagic → 8 ≤ p.length → p.drop (p.length - 2) = yzFooter →
      D (p ++ q) = D p ++ D q)
    {l : List Nat} (r : List Nat) (hl : XZConcat l) (hne : l ≠ []) :
    D (l ++ r) = D l ++ D r := by
  induction hl with
  | nil => exact absurd rfl hne
  | cons p rest h1 h2 h3 hrest ih =>
    rcases eq_or_ne rest [] with rfl | hne'
    · simp only [List.append_nil]
      exact hD p r h1 h2 h3
    · rw [List.append_assoc, hD p (rest ++ r) h1 h2 h3, ih hne',
        hD p rest h1 h2 h3, List.append_assoc]

theorem assemble_cons (D : List Nat → List Nat) (fr : Frag) (rest : List Frag) :
    assemble D (fr :: rest) = assembleFrag D fr ++ assemble D rest := by
  simp [assemble]

/-- Evaluating the concatenation loop on the fragment fold of a
well-formed chunk list: each raw fragment contributes its bytes, each
non-empty compressed fragment its decoding, in order. -/
theorem assemble_foldFrags (D : List Nat → List Nat)
    (hD : ∀ p q, p.take 6 = xzMagic → 8 ≤ p.length → p.drop (p.length - 2) = yzFooter →
      D (p ++ q) = D p ++ D q) :
    ∀ (chunks : List Chunk) (cur : Frag) (sec : Nat),
    (∀ c ∈ chunks, c.wf) → cur.isxz = true → XZConcat cur.content →
    assemble D (foldFrags chunks cur sec) =
      (if cur.content = [] then [] else D cur.content) ++
        (chunks.map (Chunk.plain D)).flatten := by
  intro chunks
  induction chunks with
  | nil =>
    intro cur sec _ hx _
    rcases eq_or_ne cur.content [] with hc | hc <;>
      simp [foldFrags, assemble, assembleFrag, hx, hc]
  | cons c rest ih =>
    intro cur sec hwf hx hconcat
    have hwfrest : ∀ x ∈ rest, x.wf := fun x hxm => hwf x (List.mem_cons_of_mem _ hxm)
    cases c with
    | raw b =>
      rw [foldFrags, assemble_cons, assemble_cons,
        ih ⟨true, sec + 2, []⟩ (sec + 2) hwfrest rfl .nil]
      rcases eq_or_ne cur.content [] with hc | hc <;>
        simp [assembleFrag, hx, hc, Chunk.plain]
    | xz p =>
      obtain ⟨⟨hpm, hp8, _⟩, hft⟩ := hwf (.xz p) (List.mem_cons_self _ _)
      have hpne : p ≠ [] := by
        intro hp
        rw [hp] at hp8
        simp at hp8
      have hcne : cur.content ++ p ≠ [] := by simp [hpne]
      rw [foldFrags, ih ⟨cur.isxz, cur.sec, cur.content ++ p⟩ sec hwfrest hx
        (hconcat.append hpm hp8 hft)]
      rcases eq_or_ne cur.content [] with hc | hc
      · simp [hc, hpne, Chunk.plain]
      · have hsplit := decoder_concat_append D hD p hconcat hc
        simp [hcne, hc, hsplit, Chunk.plain, List.append_assoc]

/-- Round-trip over an encoded well-formed container: parse, then
concatenate, recovers the chunks' decompressed contents in order. -/
theorem processframeworkpayload_encode (D : List Nat → List Nat)
    (hD : ∀ p q, p.take 6 = xzMagic → 8 ≤ p.length → p.drop (p.length - 2) = yzFooter →
      D (p ++ q) = D p ++ D q)
    (chunks : List Chunk) (hwf : ∀ c ∈ chunks, c.wf) :
    processframeworkpayload D true (encode chunks) =
      .ok ((chunks.map (Chunk.plain D)).flatten) := by
  rw [processframeworkpayload, if_pos rfl, parse_pbzx_encode_ok chunks hwf]
  simp only [Except.map]
  rw [assemble_foldFrags D hD chunks ⟨true, 0, []⟩ 0 hwf rfl .nil]
  simp

theorem c2xz_length : c2xz.length = 1024 := by
  rw [c2xz, List.length_append, List.length_append, List.length_replicate]
  rfl

theorem c2chunks_wf : ∀ c ∈ [Chunk.raw c2raw, Chunk.xz c2xz], c.wf := by
  intro c hc
  rcases List.mem_cons.mp hc with rfl | hc
  · refine ⟨⟨?_, ?_, ?_⟩, trivial⟩
    · rw [c2raw, List.length_replicate]; norm_num
    · rw [c2raw, List.take_replicate]
      norm_num
      decide
    · rw [c2raw, List.length_replicate]; norm_num
  · rcases List.mem_cons.mp hc with rfl | hc
    · refine ⟨⟨?_, ?_, ?_⟩, ?_⟩
      · rw [c2xz,
          List.take_append_of_le_length
            (by rw [List.length_append, List.length_replicate]; omega),
          List.take_append_of_le_length (by decide)]
        decide
      · rw [c2xz_length]; norm_num
      · rw [c2xz_length]; norm_num
      · show c2xz.drop (c2xz.length - 2) = yzFooter
        rw [c2xz_length, c2xz]
        exact List.drop_left' (by rw [List.length_append, List.length_replicate]; rfl)
    · simp at hc

/-! ### The claims -/

/-- C1, counterexample: the round-trip fails as universally stated.  The
container encoding the single raw fragment `[1, 2, 3]` ends right after
those three bytes, so the parser's 6-byte peek hits end of file and its
`seek(-6, 1)` lands inside the length field: the raw fragment written is
`[0, 0, 3]` and the reassembled archive differs from the original
sequence. -/
theorem claim_C1_counterexample :
    processframeworkpayload (fun l => l) true (encode [Chunk.raw [1, 2, 3]]) ≠
      .ok (([Chunk.raw [1, 2, 3]].map (Chunk.plain (fun l => l))).flatten) := by
  decide

/-- C1 (amended): for every container encoding a sequence of fragments in
which each raw fragment is at least 6 bytes long and does not begin with
the 6-byte compressed magic, and each compressed fragment is a well-formed
stream (magic, at least 8 bytes, intact 'YZ' footer), running `parse_pbzx`
and then the concatenation loop of `processframeworkpayload` yields
exactly the concatenation of each fragment's decompressed content in the
original order, for any decoder that decompresses concatenated streams
streamwise. -/
theorem claim_C1_amended_roundtrip (D : List Nat → List Nat) (chunks : List Chunk)
    (hwf : ∀ c ∈ chunks, c.wf)
    (hD : ∀ p q, p.take 6 = xzMagic → 8 ≤ p.length → p.drop (p.length - 2) = yzFooter →
      D (p ++ q) = D p ++ D q) :
    processframeworkpayload D true (encode chunks) =
      .ok ((chunks.map (Chunk.plain D)).flatten) :=
  processframeworkpayload_encode D hD chunks hwf

theorem claim_C1_witness :
    processframeworkpayload (fun l => l) true
        (encode [Chunk.raw [1, 2, 3, 4, 5, 6], Chunk.xz (xzMagic ++ [89, 90])]) =
      .ok (([Chunk.raw [1, 2, 3, 4, 5, 6], Chunk.xz (xzMagic ++ [89, 90])].map
        (Chunk.plain (fun l => l))).flatten) :=
  claim_C1_amended_roundtrip (fun l => l) _ (by decide) (fun p q _ _ _ => rfl)

/-- C2, counterexample: on the container holding one 16 MiB raw chunk
followed by one compressed chunk of declared length 1 KiB, `parse_pbzx`
produces 3 fragment files, not 2: the section-0 compressed fragment is
created before any chunk is read and stays empty. -/
theorem claim_C2_counterexample :
    (parse_pbzx (encode [Chunk.raw c2raw, Chunk.xz c2xz])).map List.length ≠
      .ok 2 := by
  rw [parse_pbzx_encode_ok _ c2chunks_wf]
  simp [foldFrags, Except.map]

/-- C2 (amended): on a container holding one 16 MiB raw chunk followed by
one compressed chunk of 1 KiB declared length, `parse_pbzx` produces
exactly 3 fragment files: an empty section-0 compressed fragment, the raw
chunk's bytes, and a compressed fragment that begins with the 6-byte magic
and retains (does not remove) the trailing 2-byte footer. -/
theorem claim_C2_amended :
    parse_pbzx (encode [Chunk.raw c2raw, Chunk.xz c2xz]) =
      .ok [⟨true, 0, []⟩, ⟨false, 1, c2raw⟩, ⟨true, 2, c2xz⟩] := by
  rw [parse_pbzx_encode_ok _ c2chunks_wf]
  simp [foldFrags]

/-- C3, counterexample: `unmount` does not clear the mount-point state in
every case, and a failing forced detach does not transition the instance
to Unattached: when both detach attempts fail the exception escapes before
`self._mounted = False`, and even a successful unmount leaves
`_mount_points` untouched. -/
theorem claim_C3_counterexample :
    Dmg.unmount ⟨"/x.dmg", some ["/tmp/m"], none, true⟩ none 1 1 =
      .error (.HDIUtilError "Failed to unmount dmg" 1,
        ⟨"/x.dmg", some ["/tmp/m"], none, true⟩) ∧
    Dmg.unmount ⟨"/x.dmg", some ["/tmp/m"], none, true⟩ none 0 0 =
      .ok ⟨"/x.dmg", some ["/tmp/m"], none, false⟩ :=
  ⟨rfl, rfl⟩

/-- C3 (amended): on a mounted DiskImage, `unmount` attempts a polite
detach; on failure it retries exactly once with the forced flag and raises
`HDIUtilError` if that also fails.  On success (polite or forced) it only
clears the mounted flag, leaving the mount-points list unchanged; when the
forced attempt fails the instance state is entirely unchanged and the
instance stays Mounted. -/
theorem claim_C3_amended (d : Dmg) (mp : String) (mps : List String)
    (hm : d._mounted = true) (hmp : d.mount_points = some (mp :: mps))
    (politeRc forceRc : Nat) :
    (politeRc = 0 →
      d.unmount none politeRc forceRc = .ok { d with _mounted := false }) ∧
    (politeRc ≠ 0 → forceRc = 0 →
      d.unmount none politeRc forceRc = .ok { d with _mounted := false }) ∧
    (politeRc ≠ 0 → forceRc ≠ 0 → d.unmount none politeRc forceRc =
      .error (.HDIUtilError "Failed to unmount dmg" forceRc, d)) := by
  refine ⟨fun h0 => ?_, fun h1 h0 => ?_, fun h1 h2 => ?_⟩
  · simp only [Dmg.unmount, hmp]
    rw [if_pos h0]
  · simp only [Dmg.unmount, hmp]
    rw [if_neg h1, if_pos h0]
  · simp only [Dmg.unmount, hmp]
    rw [if_neg h1, if_neg h2]

theorem claim_C3_witness :
    Dmg.unmount ⟨"/y.dmg", some ["/tmp/n"], none, true⟩ none 1 1 =
      .error (.HDIUtilError "Failed to unmount dmg" 1,
        ⟨"/y.dmg", some ["/tmp/n"], none, true⟩) :=
  (claim_C3_amended ⟨"/y.dmg", some ["/tmp/n"], none, true⟩ "/tmp/n" [] rfl rfl 1 1).2.2
    (by decide) (by decide)

/-- C4 (code bug): mounting a fresh DiskImage (attach succeeds with mount
point "/tmp/m") and then politely unmounting it leaves
`_mount_points = some ["/tmp/m"]` while `_mounted = false`, violating the
claimed invariant — and the `mount_points` docstring's own promise that
the attribute is `None` when the image is not attached. -/
theorem claim_C4_bug_eval :
    (Dmg.mount (Dmg.init "/x.dmg") false ⟨0, ["/tmp/m"]⟩).bind
        (fun d => d.unmount none 0 0) =
      .ok ⟨"/x.dmg", some ["/tmp/m"], none, false⟩ ∧
    ¬ specMountPointsInvariant ⟨"/x.dmg", some ["/tmp/m"], none, false⟩ := by
  constructor
  · rfl
  · intro hinv
    rcases hinv.mpr rfl with h | h <;> simp at h

/-- C5: any input whose first 4 bytes are not the container magic makes
`parse_pbzx` fail with the format error, with no fragment file created on
disk (the error's file list is empty: the magic check precedes the
creation of the section-0 fragment). -/
theorem claim_C5_no_magic_no_files (data : List Nat)
    (h : data.take 4 ≠ pbzxMagic) :
    parse_pbzx data = .error ("Error: Not a pbzx file", []) := by
  rw [parse_pbzx, if_pos h]

theorem claim_C5_witness :
    parse_pbzx [0, 1, 2] = .error ("Error: Not a pbzx file", []) :=
  claim_C5_no_magic_no_files [0, 1, 2] (by decide)

/-- C6: a container in which some compressed chunk's trailing 2-byte
marker is not 'YZ' makes `parse_pbzx` fail with the footer format error,
and `processframeworkpayload` propagates that error, so the concatenation
loop is never reached. -/
theorem claim_C6_bad_footer (D : List Nat → List Nat) (chunks : List Chunk)
    (hwf : ∀ c ∈ chunks, c.wfBase)
    (hbad : ∃ c ∈ chunks, ¬ c.goodFooter) :
    ∃ fs, parse_pbzx (encode chunks) =
        .error ("Error: Footer is not xar file footer", fs) ∧
      processframeworkpayload D true (encode chunks) =
        .error ("Error: Footer is not xar file footer", fs) := by
  obtain ⟨fs, hfs⟩ := runChunks_err chunks [] ⟨true, 0, []⟩ 0 hbad
  refine ⟨fs, ?_, ?_⟩
  · rw [parse_pbzx_encode chunks hwf, hfs]
  · rw [processframeworkpayload, if_pos rfl, parse_pbzx_encode chunks hwf, hfs]
    rfl

theorem claim_C6_witness :
    ∃ fs, parse_pbzx (encode [Chunk.xz (xzMagic ++ [0, 0])]) =
        .error ("Error: Footer is not xar file footer", fs) ∧
      processframeworkpayload (fun l => l) true (encode [Chunk.xz (xzMagic ++ [0, 0])]) =
        .error ("Error: Footer is not xar file footer", fs) :=
  claim_C6_bad_footer (fun l => l) _ (by decide) (by decide)

/-- C7: `convert` includes the `-shadow <path>` pair in its command
exactly when the instance's shadow is non-null (with the shadow path right
after the flag), omits it when the shadow is null, and on success returns
the receiver untouched together with a fresh DiskImage wrapping the output
path. -/
theorem claim_C7_convert (d : Dmg) (output fmt : String) (rc : Nat) :
    (∀ s, d.shadow = some s →
      d.convert_command output fmt =
        [HDIUTIL, "convert", "-format", fmt, "-o", output, "-shadow", s, d.path]) ∧
    (d.shadow = none →
      d.convert_command output fmt =
        [HDIUTIL, "convert", "-format", fmt, "-o", output, d.path]) ∧
    (rc = 0 → d.convert output fmt rc = .ok (d, Dmg.init output)) := by
  refine ⟨fun s hs => ?_, fun hn => ?_, fun h0 => ?_⟩
  · simp only [Dmg.convert_command, hs]
  · simp only [Dmg.convert_command, hn]
  · rw [Dmg.convert, if_neg (by omega)]

theorem claim_C7_witness :
    (Dmg.convert_command ⟨"/a.dmg", none, some "/a.dmg.shadow", false⟩ "/out" "UDRW" =
      [HDIUTIL, "convert", "-format", "UDRW", "-o", "/out", "-shadow",
        "/a.dmg.shadow", "/a.dmg"]) ∧
    (Dmg.convert ⟨"/a.dmg", none, some "/a.dmg.shadow", false⟩ "/out" "UDRW" 0 =
      .ok (⟨"/a.dmg", none, some "/a.dmg.shadow", false⟩, Dmg.init "/out")) :=
  ⟨(claim_C7_convert ⟨"/a.dmg", none, some "/a.dmg.shadow", false⟩ "/out" "UDRW" 0).1
      "/a.dmg.shadow" rfl,
    (claim_C7_convert ⟨"/a.dmg", none, some "/a.dmg.shadow", false⟩ "/out" "UDRW" 0).2.2 rfl⟩

/-- C8, counterexample: calling `mount` on an already-Mounted instance
does not fail with any error: the method runs the attach command again and
on success overwrites the mount points (no `StateError` exists anywhere in
the code). -/
theorem claim_C8_counterexample :
    Dmg.mount ⟨"/x.dmg", some ["/tmp/old"], none, true⟩ false ⟨0, ["/tmp/new"]⟩ =
      .ok ⟨"/x.dmg", some ["/tmp/new"], none, true⟩ :=
  rfl

/-- C8 (amended): `mount` performs no lifecycle-state check: invoked on an
instance that is already Mounted, with a successful attach, it proceeds to
double-mount, replacing the mount-points list with the new attach's and
leaving the instance Mounted. -/
theorem claim_C8_amended (d : Dmg) (res : AttachResult)
    (hm : d._mounted = true) (h0 : res.returncode = 0) :
    d.mount false res =
      .ok { d with mount_points := some res.mountPoints, _mounted := true } := by
  simp [Dmg.mount, h0]

theorem claim_C8_witness :
    Dmg.mount ⟨"/y.dmg", some ["/tmp/old2"], none, true⟩ false ⟨0, ["/tmp/new2"]⟩ =
      .ok ⟨"/y.dmg", some ["/tmp/new2"], none, true⟩ :=
  claim_C8_amended ⟨"/y.dmg", some ["/tmp/old2"], none, true⟩ ⟨0, ["/tmp/new2"]⟩ rfl rfl

/-- C9: the scoped-mount helper never mutates the originating Dmg: after
building the context manager via `Dmg.mounted`, entering and exiting it —
with any attach outcome, any detach outcomes, writable or not (including a
freshly derived shadow) — the Dmg state that comes out of the session is
the one that went in. -/
theorem claim_C9_scoped_mount_frame (d : Dmg) (writable : Bool) (tmpdir : String)
    (att : AttachResult) (politeRc forceRc : Nat) :
    (dmg_scoped_session d writable tmpdir att politeRc forceRc).1 = d := by
  unfold dmg_scoped_session
  split
  · rfl
  · split <;> rfl

/-- C10: (a) whenever `parse_pbzx` returns a fragment list, that list is
non-empty and its first element is the section-0 compressed-kind fragment
(created before any chunk is read); (b) an input passing the magic check
whose initial flag word has bit 24 clear — zero chunks — yields exactly
the one-element list holding that still-empty fragment. -/
theorem claim_C10_first_fragment :
    (∀ (data : List Nat) (l : List Frag), parse_pbzx data = .ok l →
      ∃ fr t, l = fr :: t ∧ fr.isxz = true ∧ fr.sec = 0) ∧
    (∀ (fb rest : List Nat), fb.length = 8 → Nat.land (beToNat fb) (2 ^ 24) = 0 →
      parse_pbzx (pbzxMagic ++ fb ++ rest) = .ok [⟨true, 0, []⟩]) := by
  constructor
  · intro data l h
    rw [parse_pbzx] at h
    split at h
    · simp at h
    · split at h
      · simp at h
      · obtain ⟨fr, t, ht, hi, hs⟩ := parseLoop_ok_head data _ _ [] _ 0 12 l h
        exact ⟨fr, t, by simpa using ht, hi, hs⟩
  · intro fb rest h8 hland
    have h0 : (pbzxMagic ++ fb ++ rest).drop 0 = pbzxMagic ++ (fb ++ rest) := by
      simp [List.append_assoc]
    have htake4 : (pbzxMagic ++ fb ++ rest).take 4 = pbzxMagic := by
      have h := take_of_drop_eq h0 (show pbzxMagic.length = 4 from rfl)
      simpa using h
    have hdrop4 : (pbzxMagic ++ fb ++ rest).drop 4 = fb ++ rest := by
      have h := drop_of_drop_eq h0 (show pbzxMagic.length = 4 from rfl)
      simpa using h
    have hfb : ((pbzxMagic ++ fb ++ rest).drop 4).take 8 = fb :=
      take_of_drop_eq hdrop4 h8
    have hlen8 : ¬ (((pbzxMagic ++ fb ++ rest).drop 4).take 8).length ≠ 8 := by
      rw [hfb, h8]; omega
    rw [parse_pbzx, if_neg (not_not_intro htake4), if_neg hlen8, hfb, parseLoop,
      if_pos hland]
    rfl

theorem claim_C10_witness :
    parse_pbzx (pbzxMagic ++ [0, 0, 0, 0, 0, 0, 0, 0] ++ [5, 6, 7]) =
      .ok [⟨true, 0, []⟩] :=
  claim_C10_first_fragment.2 [0, 0, 0, 0, 0, 0, 0, 0] [5, 6, 7] rfl (by decide)

end AutoNBI
